import Mathlib

/-!
Shallow embedding of `src/util/process-image.py` (image-compression pipeline
of mischback.de) and proofs about the behaviour its specification claims.

Conventions of the embedding:
* Python `int` is `ℤ`; the structural-similarity score (a Python float in
  `[-1, 1]`) is modelled as `ℚ`.
* File names and paths are `List Char`.
* Python exceptions propagating out of a function are modelled with
  `Except ProcErr`; a `while`-loop is modelled with explicit fuel, where
  exhausting every fuel bound models non-termination.
* Effects of the external libraries (`pyvips`, `skimage.metrics.ssim`) are
  abstracted into an environment `Env`: `score f q` is the similarity that
  the codec `f` reaches at quality `q` on the image at hand, and
  `encodeOk f` tells whether the on-disk save for format `f` succeeds.
-/

/-- The four target formats accepted by the argument parser
(`--format` choices in `parse_args`). -/
inductive TFormat where
  | jpg
  | png
  | webp
  | avif
deriving DecidableEq, Repr

/-- Errors that can propagate out of the pipeline.  `zeroDivision` is
Python's `ZeroDivisionError` (integer division by zero), `vipsError` a
failure inside a `pyvips` operation, `encodeError f` a codec-level failure
while saving format `f`, and `fuelOut` marks a run of the quality-search
loop that did not terminate within the given fuel. -/
inductive ProcErr where
  | zeroDivision
  | vipsError
  | encodeError (fmt : TFormat)
  | fuelOut
deriving DecidableEq, Repr

deriving instance DecidableEq for Except

/-- An opened `pyvips` image: decoded dimensions, the `vips-loader`
metadata tag and the file name it was loaded from. -/
structure Handle where
  width : ℤ
  height : ℤ
  loader : List Char
  filename : List Char
deriving DecidableEq, Repr

/-- External-library behaviour, abstracted: the similarity score each
format's encoder reaches at a given quality on the image under
consideration, whether the on-disk save of a format succeeds, and the fuel
bound under which a quality-search loop is observed. -/
structure Env where
  score : TFormat → ℤ → ℚ
  encodeOk : TFormat → Bool
  fuel : ℕ

/-- The configuration record produced by `parse_args`, with the script's
documented defaults. `sizes` pairs are (variant name, target width), the
width already converted by `int(tsize[1])`. -/
structure Args where
  destination : List Char
  sizes : List (List Char × ℤ) := []
  formats : List TFormat
  required_ssim : Option ℚ := none
  jpeg_compression : ℤ := 75
  jpeg_interlace : Bool := true
  png_compression : ℤ := 6
  png_interlace : Bool := true
  webp_compression : ℤ := 75
  webp_lossless : Option Bool := none
  avif_compression : ℤ := 50
  avif_lossless : Option Bool := none

/-- The list `[s, s+1, ..., s+n-1]` of `n` consecutive integers:
used to describe the qualities tried by the search loop. -/
def consecutives (s : ℤ) : ℕ → List ℤ
  | 0 => []
  | n + 1 => s :: consecutives (s + 1) n

/-- The quality-search `while`-loop shared verbatim by `_compress_jpg`,
`_compress_webp` and `_compress_avif`:

    while mssim <= required_ssim:
        compression_factor += 1
        candidate = <in-memory encode at compression_factor>
        mssim = ssim(original, candidate, win_size=3)

`mssim` is the score of the last candidate (initially `0`), `q` the current
`compression_factor`.  Returns the final quality together with the list of
qualities at which an in-memory candidate encode was performed; `none` when
the loop has not finished within `fuel` iterations. -/
def qualityLoop (score : ℤ → ℚ) (required : ℚ) : ℚ → ℤ → ℕ → Option (ℤ × List ℤ)
  | _, _, 0 => none
  | mssim, q, fuel + 1 =>
    if mssim ≤ required then
      match qualityLoop score required (score (q + 1)) (q + 1) fuel with
      | none => none
      | some (qf, tr) => some (qf, (q + 1) :: tr)
    else
      some (q, [])

/-- The similarity-guided quality search as embedded in the three lossy
compression functions: when no similarity target is given the loop is
skipped entirely and the starting quality is used with no candidate
encodes; otherwise the loop runs with `mssim` initialised to `0`. -/
def qualitySearch (score : ℤ → ℚ) (required : Option ℚ) (q : ℤ) (fuel : ℕ) :
    Option (ℤ × List ℤ) :=
  match required with
  | none => some (q, [])
  | some r => qualityLoop score r 0 q fuel

lemma consecutives_succ_toNat (s d : ℤ) (h : 1 ≤ d) :
    consecutives s d.toNat = s :: consecutives (s + 1) (d - 1).toNat := by
  have hd : d.toNat = (d - 1).toNat + 1 := by omega
  rw [hd, consecutives]

/-- Soundness of one quality-loop run: when it returns, either the stored
score already beat the target and nothing happened, or the loop performed
candidate encodes at exactly the consecutive qualities
`q+1, q+2, ..., qf`, stopping at the first quality whose score strictly
exceeds the target. -/
lemma qualityLoop_eq (score : ℤ → ℚ) (r : ℚ) :
    ∀ (fuel : ℕ) (m : ℚ) (q qf : ℤ) (tr : List ℤ),
      qualityLoop score r m q fuel = some (qf, tr) →
      (r < m ∧ qf = q ∧ tr = []) ∨
      (m ≤ r ∧ q < qf ∧ r < score qf ∧ (∀ x, q < x → x < qf → score x ≤ r) ∧
        tr = consecutives (q + 1) (qf - q).toNat) := by
  intro fuel
  induction fuel with
  | zero => intro m q qf tr h; simp [qualityLoop] at h
  | succ n ih =>
    intro m q qf tr h
    rw [qualityLoop] at h
    by_cases hm : m ≤ r
    · rw [if_pos hm] at h
      cases hrec : qualityLoop score r (score (q + 1)) (q + 1) n with
      | none => rw [hrec] at h; exact absurd h (by simp)
      | some p =>
        obtain ⟨qf', tr'⟩ := p
        rw [hrec] at h
        have hqf : qf' = qf ∧ (q + 1) :: tr' = tr := by
          have := h
          simp only [Option.some.injEq, Prod.mk.injEq] at this
          exact this
        obtain ⟨hqf1, hqf2⟩ := hqf
        rw [hqf1] at hrec
        rcases ih (score (q + 1)) (q + 1) qf tr' hrec with
          ⟨hlt, hq1, rfl⟩ | ⟨hle, hqlt, hsc, hmid, htr⟩
        · refine Or.inr ⟨hm, by omega, by rw [hq1]; exact hlt, ?_, ?_⟩
          · intro x hx1 hx2; omega
          · rw [← hqf2]
            have h1 : (qf - q).toNat = 1 := by omega
            rw [h1, consecutives, consecutives]
        · refine Or.inr ⟨hm, by omega, hsc, ?_, ?_⟩
          · intro x hx1 hx2
            rcases eq_or_lt_of_le (by omega : q + 1 ≤ x) with hx | hx
            · rw [← hx]; exact hle
            · exact hmid x hx hx2
          · rw [← hqf2, htr]
            have h1 : (1 : ℤ) ≤ qf - q := by omega
            rw [consecutives_succ_toNat (q + 1) (qf - q) h1]
            congr 2
            omega
    · rw [if_neg hm] at h
      have := h
      simp only [Option.some.injEq, Prod.mk.injEq] at this
      exact Or.inl ⟨lt_of_not_le hm, this.1.symm, this.2.symm⟩

/-- When the score of every candidate stays at or below the target, the
loop never returns: there is no clamp and no exit at quality 100. -/
lemma qualityLoop_none (score : ℤ → ℚ) (r : ℚ) (hs : ∀ q, score q ≤ r) :
    ∀ (fuel : ℕ) (m : ℚ) (q : ℤ), m ≤ r → qualityLoop score r m q fuel = none := by
  intro fuel
  induction fuel with
  | zero => intro m q _; rfl
  | succ n ih =>
    intro m q hm
    rw [qualityLoop, if_pos hm, ih (score (q + 1)) (q + 1) (hs (q + 1))]

/-- Largest index of the character `c` in `l` (Python `str.rfind`);
`none` when the character does not occur. -/
def rfindIdx (c : Char) : List Char → Option ℕ
  | [] => none
  | a :: as =>
    match rfindIdx c as with
    | some i => some (i + 1)
    | none => if a = c then some 0 else none

/-- `pathlib.PurePath.stem` applied to a file *name*: the name without its
last dot-suffix, where per CPython a suffix exists only when the last dot
sits strictly inside the name (`0 < i < len(name) - 1`). -/
def pyStem (name : List Char) : List Char :=
  match rfindIdx '.' name with
  | some i => if 0 < i ∧ i < name.length - 1 then name.take i else name
  | none => name

/-- `pathlib.PurePath.with_suffix` on a file name: drop the existing
dot-suffix when there is one (the `pyStem` rule) and append the new
suffix. -/
def pyWithSuffix (name suffix : List Char) : List Char :=
  pyStem name ++ suffix

/-- The output file suffix `".{}".format(target_format.lower())`. -/
def fmtExt : TFormat → List Char
  | .jpg => ".jpg".data
  | .png => ".png".data
  | .webp => ".webp".data
  | .avif => ".avif".data

/-- The target height computed by `_resize`:
`math.floor(img.height / (img.width / target_width))`, Python's true
division modelled as exact division in `ℚ`. -/
def targetHeight (img : Handle) (target_width : ℤ) : ℤ :=
  Int.floor ((img.height : ℚ) / ((img.width : ℚ) / (target_width : ℚ)))

/-- Models `pyvips` `thumbnail_image(target_width, height=…, size="down",
no_rotate=True, crop=True, linear=True)`: fails on a non-positive target
box; never upscales (`size="down"`), returning the image unchanged when the
box is at least as large as the image; otherwise delivers exactly the
requested box clipped to the source dimensions (`crop` corrects rounding
drift). -/
def thumbnail_image (img : Handle) (w h : ℤ) : Except ProcErr Handle :=
  if w ≤ 0 ∨ h ≤ 0 then .error .vipsError
  else if img.width ≤ w ∧ img.height ≤ h then .ok img
  else .ok { img with width := min w img.width, height := min h img.height }

/-- Embedding of `_resize`: computes the target height and delegates to
`thumbnail_image`.  The only failure raised by the function's own code is
Python's `ZeroDivisionError` when `target_width = 0`; the script performs no
width validation and defines no `ResizeError`. -/
def _resize (img : Handle) (target_width : ℤ) : Except ProcErr Handle :=
  if target_width = 0 then .error .zeroDivision
  else thumbnail_image img target_width (targetHeight img target_width)

/-- Result of `_compress_jpg`: the destination written, the quality `Q` of
the final on-disk `jpegsave`, and the qualities of the in-memory candidate
encodes performed by the quality-search loop. -/
structure JpgOut where
  dest : List Char
  q : ℤ
  candidates : List ℤ
deriving DecidableEq, Repr

/-- Embedding of `_compress_jpg`: optional quality search starting from
`compression_factor` (with `mssim` initialised to `0`), then one on-disk
`jpegsave` at the resulting quality. -/
def _compress_jpg (env : Env) (img : Handle) (dest : List Char)
    (required_ssim : Option ℚ) (compression_factor : ℤ)
    (interlace : Bool := true) : Except ProcErr JpgOut :=
  match qualitySearch (env.score .jpg) required_ssim compression_factor env.fuel with
  | none => .error .fuelOut
  | some (qf, tr) =>
    if env.encodeOk .jpg then .ok ⟨dest, qf, tr⟩ else .error (.encodeError .jpg)

/-- Embedding of `_compress_png`: no quality search (lossless format), one
`pngsave` to disk. -/
def _compress_png (env : Env) (img : Handle) (dest : List Char)
    (compression_factor : ℤ) (interlace : Bool := true) :
    Except ProcErr (List Char) :=
  if env.encodeOk .png then .ok dest else .error (.encodeError .png)

/-- Result of the WebP/AVIF compression functions: destination, final
on-disk quality, the resolved lossless flag, and the in-memory candidate
encodes as (quality, lossless-flag-passed) pairs. -/
structure LossyOut where
  dest : List Char
  q : ℤ
  lossless : Bool
  candidates : List (ℤ × Bool)
deriving DecidableEq, Repr

/-- Embedding of `_compress_webp`: when `lossless` is `None` it is resolved
from the handle's `vips-loader` tag (`"jpegload"` → lossy) before the
quality-search loop; every encode call — each in-memory `webpsave_buffer`
candidate and the final `webpsave` — passes the same resolved `lossless`
variable, recorded in the trace. -/
def _compress_webp (env : Env) (img : Handle) (dest : List Char)
    (required_ssim : Option ℚ) (compression_factor : ℤ)
    (lossless : Option Bool) : Except ProcErr LossyOut :=
  let ll : Bool :=
    match lossless with
    | none => if img.loader = "jpegload".data then false else true
    | some b => b
  match qualitySearch (env.score .webp) required_ssim compression_factor env.fuel with
  | none => .error .fuelOut
  | some (qf, tr) =>
    if env.encodeOk .webp then .ok ⟨dest, qf, ll, tr.map (fun q => (q, ll))⟩
    else .error (.encodeError .webp)

/-- Embedding of `_compress_avif`: identical control flow to
`_compress_webp` with the AVIF saver (`heifsave`). -/
def _compress_avif (env : Env) (img : Handle) (dest : List Char)
    (required_ssim : Option ℚ) (compression_factor : ℤ)
    (lossless : Option Bool) : Except ProcErr LossyOut :=
  let ll : Bool :=
    match lossless with
    | none => if img.loader = "jpegload".data then false else true
    | some b => b
  match qualitySearch (env.score .avif) required_ssim compression_factor env.fuel with
  | none => .error .fuelOut
  | some (qf, tr) =>
    if env.encodeOk .avif then .ok ⟨dest, qf, ll, tr.map (fun q => (q, ll))⟩
    else .error (.encodeError .avif)

/-- Embedding of `_compress`: computes the destination
`Path(args.destination, stem).with_suffix(".fmt")` — using the override
stem when given, else the stem of the image's file name — and dispatches to
the format-specific compression function, returning the written path. -/
def _compress (env : Env) (img : Handle) (target_format : TFormat)
    (args : Args) (override_stem : Option (List Char) := none) :
    Except ProcErr (List Char) :=
  let stem :=
    match override_stem with
    | none => pyStem img.filename
    | some s => s
  let dest := args.destination ++ '/' :: pyWithSuffix stem (fmtExt target_format)
  match target_format with
  | .jpg =>
    (_compress_jpg env img dest args.required_ssim args.jpeg_compression
      args.jpeg_interlace).map (fun o => o.dest)
  | .png => _compress_png env img dest args.png_compression args.png_interlace
  | .webp =>
    (_compress_webp env img dest args.required_ssim args.webp_compression
      args.webp_lossless).map (fun o => o.dest)
  | .avif =>
    (_compress_avif env img dest args.required_ssim args.avif_compression
      args.avif_lossless).map (fun o => o.dest)

/-- Embedding of `cmd_compress`: iterates over the requested formats,
collecting each `_compress` result.  The script has no try/except: an
exception raised for one format propagates and aborts the loop, which the
`Except` monad's `mapM` models exactly. -/
def cmd_compress (env : Env) (args : Args) (img : Handle) :
    Except ProcErr (List (List Char)) :=
  args.formats.mapM (fun tformat => _compress env img tformat args none)

/-- Embedding of `cmd_responsive`: for each (name, width) size request in
order, resize the source, derive the override stem `"{stem}-{name}"` from
the stem of the source file name, and compress into every requested format;
outputs are collected in loop order and any exception propagates unhandled,
which `Except.bind` models exactly. -/
def cmd_responsive (env : Env) (args : Args) (img : Handle) :
    Except ProcErr (List (List Char)) :=
  (args.sizes.mapM (fun tsize =>
    (_resize img tsize.2).bind (fun resized =>
      args.formats.mapM (fun tformat =>
        _compress env resized tformat args
          (some (pyStem img.filename ++ '-' :: tsize.1)))))).map List.flatten

lemma consecutives_ne_nil (s : ℤ) (n : ℕ) (h : 0 < n) :
    consecutives s n ≠ [] ∧ (consecutives s n).head? = some s := by
  cases n with
  | zero => omega
  | succ m => exact ⟨by simp [consecutives], rfl⟩

/-- A successful quality search with a non-negative target always comes
from the loop's positive branch: the final quality is the first quality
strictly above the initial one whose score strictly exceeds the target, and
the candidate encodes happened at the consecutive qualities from
`init + 1` up to the final one. -/
lemma qualitySearch_sound (score : ℤ → ℚ) (r : ℚ) (h0 : 0 ≤ r)
    (init qf : ℤ) (tr : List ℤ) (fuel : ℕ)
    (h : qualitySearch score (some r) init fuel = some (qf, tr)) :
    init < qf ∧ r < score qf ∧ (∀ x, init < x → x < qf → score x ≤ r) ∧
      tr = consecutives (init + 1) (qf - init).toNat := by
  rcases qualityLoop_eq score r fuel 0 init qf tr h with ⟨hlt, _, _⟩ | hr
  · exact absurd h0 (not_le.mpr hlt)
  · exact ⟨hr.2.1, hr.2.2.1, hr.2.2.2.1, hr.2.2.2.2⟩

lemma rfindIdx_eq_none (c : Char) (l : List Char) (h : c ∉ l) :
    rfindIdx c l = none := by
  induction l with
  | nil => rfl
  | cons a as ih =>
    rw [rfindIdx, ih (fun hm => h (List.mem_cons_of_mem a hm))]
    exact if_neg (fun he => h (by rw [he]; exact List.mem_cons_self c as))

lemma pyStem_no_dot (name : List Char) (h : '.' ∉ name) : pyStem name = name := by
  unfold pyStem
  rw [rfindIdx_eq_none '.' name h]

lemma pyWithSuffix_no_dot (name sfx : List Char) (h : '.' ∉ name) :
    pyWithSuffix name sfx = name ++ sfx := by
  unfold pyWithSuffix
  rw [pyStem_no_dot name h]

lemma targetHeight_eq_ediv (img : Handle) (tw : ℤ) (hw : 0 < img.width) :
    targetHeight img tw = img.height * tw / img.width := by
  unfold targetHeight
  have hcast : ((img.width.toNat : ℕ) : ℚ) = (img.width : ℚ) := by
    exact_mod_cast congrArg (fun z : ℤ => (z : ℚ)) (Int.toNat_of_nonneg (le_of_lt hw))
  rw [div_div_eq_mul_div]
  rw [show ((img.height : ℚ) * (tw : ℚ) / (img.width : ℚ)) =
        ((img.height * tw : ℤ) : ℚ) / ((img.width.toNat : ℕ) : ℚ) by
      rw [hcast]; push_cast; ring]
  rw [Rat.floor_intCast_div_natCast]
  congr 1
  exact (Int.toNat_of_nonneg (le_of_lt hw))

lemma targetHeight_pos (img : Handle) (tw : ℤ) (hw : 0 < img.width)
    (h : img.width ≤ img.height * tw) : 0 < targetHeight img tw := by
  rw [targetHeight_eq_ediv img tw hw]
  have h1 : (1 : ℤ) ≤ img.height * tw / img.width := by
    rw [Int.le_ediv_iff_mul_le hw]
    omega
  omega

lemma targetHeight_ge_height (img : Handle) (tw : ℤ) (hw : 0 < img.width)
    (hh : 0 ≤ img.height) (hge : img.width ≤ tw) :
    img.height ≤ targetHeight img tw := by
  rw [targetHeight_eq_ediv img tw hw]
  rw [Int.le_ediv_iff_mul_le hw]
  exact mul_le_mul_of_nonneg_left hge hh

lemma targetHeight_le_height (img : Handle) (tw : ℤ) (hw : 0 < img.width)
    (hh : 0 ≤ img.height) (hle : tw ≤ img.width) :
    targetHeight img tw ≤ img.height := by
  rw [targetHeight_eq_ediv img tw hw]
  calc img.height * tw / img.width ≤ img.height * img.width / img.width :=
        Int.ediv_le_ediv hw (mul_le_mul_of_nonneg_left hle hh)
    _ = img.height := Int.mul_ediv_cancel _ (by omega)

lemma mapM_ok {α β : Type} (g : α → Except ProcErr β) (gv : α → β) :
    ∀ l : List α, (∀ x ∈ l, g x = .ok (gv x)) → l.mapM g = .ok (l.map gv) := by
  intro l
  induction l with
  | nil => intro _; rfl
  | cons a as ih =>
    intro h
    rw [List.mapM_cons, h a (List.mem_cons_self a as),
      ih (fun x hx => h x (List.mem_cons_of_mem a hx))]
    rfl

lemma mapM_append_err {α β : Type} (g : α → Except ProcErr β) (e : ProcErr)
    (a : α) (rest : List α) (ha : g a = .error e) :
    ∀ pre : List α, (∀ x ∈ pre, ∃ b, g x = .ok b) →
      (pre ++ a :: rest).mapM g = .error e := by
  intro pre
  induction pre with
  | nil =>
    intro _
    rw [List.nil_append, List.mapM_cons, ha]
    rfl
  | cons x xs ih =>
    intro h
    obtain ⟨b, hb⟩ := h x (List.mem_cons_self x xs)
    rw [List.cons_append, List.mapM_cons, hb,
      ih (fun y hy => h y (List.mem_cons_of_mem x hy))]
    rfl

/-- A format whose on-disk save succeeds is compressed to the expected
destination path when no similarity target is configured. -/
lemma compress_ok (env : Env) (img : Handle) (f : TFormat) (args : Args)
    (os : Option (List Char)) (hssim : args.required_ssim = none)
    (he : env.encodeOk f = true) :
    _compress env img f args os =
      .ok (args.destination ++ '/' ::
        pyWithSuffix (os.getD (pyStem img.filename)) (fmtExt f)) := by
  cases os <;> cases f <;>
    simp [_compress, _compress_jpg, _compress_png, _compress_webp,
      _compress_avif, qualitySearch, hssim, he, Option.getD, Except.map]

/-- When the JPEG saver fails and no similarity target is configured, the
JPEG unit raises an EncodeError. -/
lemma compress_jpg_err (env : Env) (img : Handle) (args : Args)
    (os : Option (List Char)) (hssim : args.required_ssim = none)
    (he : env.encodeOk .jpg = false) :
    _compress env img .jpg args os = .error (.encodeError .jpg) := by
  cases os <;>
    simp [_compress, _compress_jpg, qualitySearch, hssim, he, Except.map]

/-- `_resize` succeeds whenever the requested width and the computed target
height are positive. -/
lemma resize_ok_exists (img : Handle) (tw : ℤ) (h1 : 0 < tw)
    (h2 : 0 < targetHeight img tw) :
    ∃ h', _resize img tw = .ok h' ∧ h'.loader = img.loader := by
  unfold _resize thumbnail_image
  rw [if_neg (by omega : ¬ tw = 0)]
  rw [if_neg (by omega : ¬ (tw ≤ 0 ∨ targetHeight img tw ≤ 0))]
  by_cases hc : img.width ≤ tw ∧ img.height ≤ targetHeight img tw
  · rw [if_pos hc]
    exact ⟨img, rfl, rfl⟩
  · rw [if_neg hc]
    exact ⟨_, rfl, rfl⟩

/-- An environment where every candidate encode reaches full similarity and
every on-disk save succeeds. -/
def envAllGood : Env := ⟨fun _ _ => 1, fun _ => true, 100⟩

/-- An environment where the JPEG saver fails and every other saver
succeeds; candidate encodes score full similarity. -/
def envJpgFails : Env :=
  ⟨fun _ _ => 1, fun f => match f with | .jpg => false | _ => true, 100⟩

/-- A sample 800 × 600 PNG-sourced image. -/
def imgSample : Handle := ⟨800, 600, "pngload".data, "photo.png".data⟩

/-- A sample JPEG-sourced image. -/
def imgJpeg : Handle := ⟨800, 600, "jpegload".data, "photo.jpg".data⟩

/-- A 601 × 400 image: resizing it to width 300 exercises a non-integer
scale ratio. -/
def imgOdd : Handle := ⟨601, 400, "pngload".data, "odd.png".data⟩

/-- A source image whose stem itself contains a dot. -/
def imgDotted : Handle := ⟨400, 300, "pngload".data, "img.v2.png".data⟩

/-- A similarity profile that first exceeds target 1 at quality 77. -/
def scoreStep77 : ℤ → ℚ := fun q => if q ≤ 76 then 0 else 2

/-- C1 counterexample: with target similarity 1 and every candidate scoring
2 — so an encode at the initial quality 75 itself would already beat the
target — the search still returns quality 76 after a single candidate
encode performed at 76.  The first candidate encode is not performed at
`initial_quality`, so the claimed search scheme (first encode at
`initial_quality`, increment only afterwards) is false on the code. -/
theorem qualitySearch_first_encode_not_at_initial :
    qualitySearch (fun _ => (2 : ℚ)) (some 1) 75 100 = some (76, [76]) ∧
      ((76 : ℤ), [(76 : ℤ)]) ≠ ((75 : ℤ), [(75 : ℤ)]) :=
  ⟨by decide, by decide⟩

/-- C1 (amended): for a non-negative target, a terminating quality search
increments the quality by exactly 1 *before* each candidate encode — the
candidate qualities are exactly the consecutive values
`initial+1, initial+2, …, final` — and it stops at the first quality whose
similarity score strictly exceeds the target; in particular the first
candidate encode is at `initial_quality + 1`, not at `initial_quality`. -/
theorem qualitySearch_increments_before_encode (score : ℤ → ℚ) (r : ℚ)
    (init qf : ℤ) (tr : List ℤ) (fuel : ℕ) (h0 : 0 ≤ r)
    (h : qualitySearch score (some r) init fuel = some (qf, tr)) :
    init < qf ∧ r < score qf ∧ (∀ x, init < x → x < qf → score x ≤ r) ∧
      tr = consecutives (init + 1) (qf - init).toNat ∧
      tr.head? = some (init + 1) := by
  obtain ⟨h1, h2, h3, h4⟩ := qualitySearch_sound score r h0 init qf tr fuel h
  refine ⟨h1, h2, h3, h4, ?_⟩
  rw [h4]
  exact (consecutives_ne_nil (init + 1) (qf - init).toNat (by omega)).2

theorem qualitySearch_increments_before_encode_witness :
    (0 : ℚ) ≤ 1 ∧
    qualitySearch scoreStep77 (some 1) 75 100 = some (77, [76, 77]) ∧
    ((75 : ℤ) < 77 ∧ (1 : ℚ) < scoreStep77 77 ∧
      ([76, 77] : List ℤ) = consecutives (75 + 1) ((77 : ℤ) - 75).toNat ∧
      ([76, 77] : List ℤ).head? = some (75 + 1)) := by
  have h0 : (0 : ℚ) ≤ 1 := by norm_num
  have h : qualitySearch scoreStep77 (some 1) 75 100 = some (77, [76, 77]) := by
    decide
  have c := qualitySearch_increments_before_encode scoreStep77 1 75 77 [76, 77] 100 h0 h
  exact ⟨h0, h, c.1, c.2.1, c.2.2.2.1, c.2.2.2.2⟩

set_option maxRecDepth 4000 in
/-- C2 counterexample: with target similarity 1 and every candidate scoring
0, the search started at quality 75 is still running after 200 iterations —
long past the format maximum of 100 — rather than exiting when the quality
reaches 100. -/
theorem qualitySearch_no_exit_at_100 :
    qualitySearch (fun _ => (0 : ℚ)) (some 1) 75 200 = none := by
  decide

/-- C2 (amended): the quality-search loop contains no clamping of the
quality value and no exit at the format maximum 100: it terminates only
when a candidate's similarity score strictly exceeds the target, and when
no candidate ever exceeds the target the loop never exits — for every fuel
bound it is still running, incrementing the quality without bound. -/
theorem qualitySearch_unbounded (score : ℤ → ℚ) (r : ℚ) (init : ℤ)
    (h0 : 0 ≤ r) (hs : ∀ q, score q ≤ r) (fuel : ℕ) :
    qualitySearch score (some r) init fuel = none :=
  qualityLoop_none score r hs fuel 0 init h0

theorem qualitySearch_unbounded_witness :
    (0 : ℚ) ≤ 0 ∧ qualitySearch (fun _ => (0 : ℚ)) (some 0) 75 37 = none :=
  ⟨le_refl 0, qualitySearch_unbounded (fun _ => (0 : ℚ)) 0 75 (le_refl 0)
    (fun _ => le_refl 0) 37⟩

/-- C6 counterexample: with `required_similarity = 0.0` the search started
at quality 80 does not return immediately at 80: the loop body runs once
(`0 ≤ 0.0`), increments to 81 and performs a candidate encode there. -/
theorem qualitySearch_not_immediate_at_zero_target :
    qualitySearch (fun _ => (1 : ℚ)) (some 0) 80 100 = some (81, [81]) ∧
      (81 : ℤ) ≠ 80 :=
  ⟨by decide, by decide⟩

/-- C6 (amended): with `required_similarity = 0.0` the search does not
return at the initial quality: because the score accumulator starts at 0
and the loop runs while `mssim ≤ 0.0`, the quality is incremented to
`initial + 1` and one candidate encode occurs; the search stops right there
provided that candidate scores strictly positively. -/
theorem qualitySearch_zero_target (score : ℤ → ℚ) (init : ℤ) (fuel : ℕ)
    (hs : 0 < score (init + 1)) (hf : 2 ≤ fuel) :
    qualitySearch score (some 0) init fuel = some (init + 1, [init + 1]) := by
  obtain ⟨k, rfl⟩ : ∃ k, fuel = k + 2 := ⟨fuel - 2, by omega⟩
  show qualityLoop score 0 0 init (k + 2) = _
  rw [qualityLoop, if_pos le_rfl, qualityLoop, if_neg (not_le.mpr hs)]

theorem qualitySearch_zero_target_witness :
    (0 : ℚ) < 1 ∧ 2 ≤ 100 ∧
    qualitySearch (fun _ => (1 : ℚ)) (some 0) 42 100 = some (42 + 1, [42 + 1]) :=
  ⟨by norm_num, by norm_num,
    qualitySearch_zero_target (fun _ => (1 : ℚ)) 42 100 (by norm_num) (by norm_num)⟩

set_option maxRecDepth 4000 in
/-- C7 counterexample: with a similarity profile that first exceeds the
target at quality 150, the search from initial quality 75 returns final
quality 150 — the final quality is not bounded by 100. -/
theorem qualitySearch_final_exceeds_100 :
    (qualitySearch (fun q => if 150 ≤ q then (1 : ℚ) else 0) (some 0) 75 200).map
        Prod.fst = some 150 ∧ ¬ (150 : ℤ) ≤ 100 :=
  ⟨by decide, by decide⟩

/-- C7 (amended): for a fixed source image and format — a fixed similarity
profile — the final quality returned by the quality search is non-decreasing
in the initial quality, whenever both searches terminate; the spec's
additional bound "never exceeds 100" does not hold on the code. -/
theorem qualitySearch_monotone (score : ℤ → ℚ) (r : ℚ) (i1 i2 q1 q2 : ℤ)
    (t1 t2 : List ℤ) (f1 f2 : ℕ) (h0 : 0 ≤ r) (hi : i1 ≤ i2)
    (h1 : qualitySearch score (some r) i1 f1 = some (q1, t1))
    (h2 : qualitySearch score (some r) i2 f2 = some (q2, t2)) :
    q1 ≤ q2 := by
  obtain ⟨hq1, _, hmid1, _⟩ := qualitySearch_sound score r h0 i1 q1 t1 f1 h1
  obtain ⟨hq2, hs2, _, _⟩ := qualitySearch_sound score r h0 i2 q2 t2 f2 h2
  by_contra hlt
  push_neg at hlt
  exact absurd hs2 (not_lt.mpr (hmid1 q2 (by omega) hlt))

theorem qualitySearch_monotone_witness :
    (0 : ℚ) ≤ 1 ∧ (70 : ℤ) ≤ 72 ∧ (77 : ℤ) ≤ 77 := by
  have ha : qualitySearch scoreStep77 (some 1) 70 100 =
      some (77, [71, 72, 73, 74, 75, 76, 77]) := by decide
  have hb : qualitySearch scoreStep77 (some 1) 72 100 =
      some (77, [73, 74, 75, 76, 77]) := by decide
  exact ⟨by norm_num, by norm_num,
    qualitySearch_monotone scoreStep77 1 70 72 77 77 _ _ 100 100 (by norm_num)
      (by norm_num) ha hb⟩

/-- C10: with a non-negative similarity target the search-loop body always
runs at least once — `mssim` starts at 0 and the loop continues while
`mssim ≤ target` — so whenever `_compress_jpg` succeeds, the quality of its
final on-disk `jpegsave` is at least `initial + 1` and at least one
in-memory candidate encode occurred (the first one at `initial + 1`), even
when an encode at the initial quality alone would already have met the
target. -/
theorem compress_jpg_always_increments (env : Env) (img : Handle)
    (dest : List Char) (r : ℚ) (cf : ℤ) (il : Bool) (out : JpgOut)
    (h0 : 0 ≤ r)
    (h : _compress_jpg env img dest (some r) cf il = .ok out) :
    cf + 1 ≤ out.q ∧ out.candidates ≠ [] ∧
      out.candidates.head? = some (cf + 1) := by
  unfold _compress_jpg at h
  cases hq : qualitySearch (env.score .jpg) (some r) cf env.fuel with
  | none => rw [hq] at h; exact absurd h (by simp)
  | some p =>
    obtain ⟨qf, tr⟩ := p
    rw [hq] at h
    dsimp only at h
    by_cases he : env.encodeOk .jpg
    · rw [if_pos he] at h
      have hout : out = ⟨dest, qf, tr⟩ := by
        have := h
        simp only [Except.ok.injEq] at this
        exact this.symm
      obtain ⟨hlt, _, _, htr⟩ := qualitySearch_sound (env.score .jpg) r h0 cf qf tr env.fuel hq
      have hne := consecutives_ne_nil (cf + 1) (qf - cf).toNat (by omega)
      rw [hout]
      dsimp only
      exact ⟨by omega, htr ▸ hne.1, htr ▸ hne.2⟩
    · rw [if_neg he] at h
      exact absurd h (by simp)

theorem compress_jpg_always_increments_witness :
    (0 : ℚ) ≤ 0 ∧
    _compress_jpg envAllGood imgSample "d".data (some 0) 75 true =
      .ok ⟨"d".data, 76, [76]⟩ ∧
    ((75 : ℤ) + 1 ≤ 76 ∧ ([76] : List ℤ) ≠ [] ∧
      ([76] : List ℤ).head? = some (75 + 1)) := by
  have h : _compress_jpg envAllGood imgSample "d".data (some 0) 75 true =
      .ok ⟨"d".data, 76, [76]⟩ := by decide
  have c := compress_jpg_always_increments envAllGood imgSample "d".data 0 75 true
    ⟨"d".data, 76, [76]⟩ (le_refl 0) h
  exact ⟨le_refl 0, h, c⟩

/-- C3: whenever `_resize` succeeds on a genuine downscale request
(`0 < target_width < source_width`, positive source height), the output
image has exactly the requested width, and its height is exactly
`floor(source_height / (source_width / target_width))` — the height scales
by the same ratio as the width, rounded down, which for positive dimensions
coincides with the integer floor-division `height * target_width / width`,
also for non-integer ratios. -/
theorem resize_height_formula (img : Handle) (tw : ℤ) (out : Handle)
    (hw : 0 < tw) (hlt : tw < img.width) (hh : 0 < img.height)
    (h : _resize img tw = .ok out) :
    out.width = tw ∧
    out.height = ⌊(img.height : ℚ) / ((img.width : ℚ) / (tw : ℚ))⌋ ∧
    out.height = img.height * tw / img.width := by
  have hw0 : (0 : ℤ) < img.width := lt_trans hw hlt
  unfold _resize at h
  rw [if_neg (by omega : ¬ tw = 0)] at h
  unfold thumbnail_image at h
  by_cases hneg : tw ≤ 0 ∨ targetHeight img tw ≤ 0
  · rw [if_pos hneg] at h
    exact absurd h (by simp)
  · rw [if_neg hneg] at h
    push_neg at hneg
    have hc : ¬ (img.width ≤ tw ∧ img.height ≤ targetHeight img tw) := by
      intro hand
      omega
    rw [if_neg hc] at h
    have hout : out = Handle.mk (min tw img.width)
        (min (targetHeight img tw) img.height) img.loader img.filename := by
      have := h
      simp only [Except.ok.injEq] at this
      exact this.symm
    have hminw : min tw img.width = tw := min_eq_left (le_of_lt hlt)
    have hminh : min (targetHeight img tw) img.height = targetHeight img tw :=
      min_eq_left (targetHeight_le_height img tw hw0 (le_of_lt hh) (le_of_lt hlt))
    rw [hout]
    dsimp only
    rw [hminw, hminh]
    exact ⟨rfl, rfl, targetHeight_eq_ediv img tw hw0⟩

theorem resize_height_formula_witness :
    (0 : ℤ) < 300 ∧ (300 : ℤ) < imgOdd.width ∧ (0 : ℤ) < imgOdd.height ∧
    _resize imgOdd 300 = .ok ⟨300, 199, "pngload".data, "odd.png".data⟩ ∧
    ((⟨300, 199, "pngload".data, "odd.png".data⟩ : Handle).width = 300 ∧
      (⟨300, 199, "pngload".data, "odd.png".data⟩ : Handle).height =
        ⌊(imgOdd.height : ℚ) / ((imgOdd.width : ℚ) / (300 : ℚ))⌋ ∧
      (⟨300, 199, "pngload".data, "odd.png".data⟩ : Handle).height =
        imgOdd.height * 300 / imgOdd.width) := by
  have hth : targetHeight imgOdd 300 = 199 := by
    rw [targetHeight_eq_ediv imgOdd 300 (by decide)]
    decide
  have h : _resize imgOdd 300 = .ok ⟨300, 199, "pngload".data, "odd.png".data⟩ := by
    unfold _resize
    rw [if_neg (by decide : ¬ (300 : ℤ) = 0), hth]
    decide
  have c := resize_height_formula imgOdd 300 ⟨300, 199, "pngload".data, "odd.png".data⟩
    (by decide) (by decide) (by decide) h
  exact ⟨by decide, by decide, by decide, h, c⟩

/-- C4 counterexample: requesting target width 900 on the 800-wide sample
image — which per the claim must fail with a ResizeError raised inside the
resize component — instead succeeds, returning the image un-upscaled. -/
theorem resize_no_guard_on_large_width :
    _resize imgSample 900 = .ok imgSample := by
  have hth : targetHeight imgSample 900 = 675 := by
    rw [targetHeight_eq_ediv imgSample 900 (by decide)]
    decide
  unfold _resize
  rw [if_neg (by decide : ¬ (900 : ℤ) = 0), hth]
  decide

/-- C4 (amended): the resize component performs no width validation and the
script defines no ResizeError at all: for any `target_width ≥ source_width`
(positive source dimensions) `_resize` succeeds, returning the source image
unchanged because the `size="down"` policy of the thumbnail operation
suppresses upscaling; the only failure raised by the function's own code is
Python's ZeroDivisionError when `target_width = 0`. -/
theorem resize_has_no_width_guard (img : Handle) (tw : ℤ)
    (hw : 0 < img.width) (hh : 0 < img.height) (hge : img.width ≤ tw) :
    _resize img tw = .ok img ∧ _resize img 0 = .error .zeroDivision := by
  constructor
  · have hth : img.height ≤ targetHeight img tw :=
      targetHeight_ge_height img tw hw (le_of_lt hh) hge
    unfold _resize thumbnail_image
    rw [if_neg (by omega : ¬ tw = 0)]
    rw [if_neg (by omega : ¬ (tw ≤ 0 ∨ targetHeight img tw ≤ 0))]
    · rw [if_pos ⟨hge, hth⟩]
  · unfold _resize
    rw [if_pos rfl]

theorem resize_has_no_width_guard_witness :
    (0 : ℤ) < imgSample.width ∧ (0 : ℤ) < imgSample.height ∧
      imgSample.width ≤ (800 : ℤ) ∧
    (_resize imgSample 800 = .ok imgSample ∧
      _resize imgSample 0 = .error .zeroDivision) :=
  ⟨by decide, by decide, by decide,
    resize_has_no_width_guard imgSample 800 (by decide) (by decide) (by decide)⟩

/-- Arguments requesting JPEG then PNG encodes into directory "out",
no similarity target. -/
def argsJpgPng : Args := { destination := "out".data, formats := [.jpg, .png] }

/-- Arguments requesting PNG, JPEG, WebP encodes into directory "out". -/
def argsPngJpgWebp : Args :=
  { destination := "out".data, formats := [.png, .jpg, .webp] }

/-- C5 counterexample: compressing into [jpg, png] in an environment where
the JPEG saver fails does not record the error and continue with PNG: the
whole `cmd_compress` run aborts with the JPEG EncodeError, no output list
is produced, the PNG format is never written, and there is no aggregate
per-format report. -/
theorem cmd_compress_aborts_on_first_error :
    cmd_compress envJpgFails argsJpgPng imgSample = .error (.encodeError .jpg) ∧
      (cmd_compress envJpgFails argsJpgPng imgSample).isOk = false :=
  ⟨by decide, by decide⟩

/-- C5 (amended): `cmd_compress` has no per-format error recovery: when the
requested formats are `pre ++ jpg :: rest` with every format in `pre`
saving successfully, no similarity target configured and the JPEG save
failing, the whole invocation returns that single EncodeError — the formats
in `rest` are never attempted and the successful outputs of `pre` are not
reported. -/
theorem cmd_compress_error_propagates (env : Env) (img : Handle) (args : Args)
    (pre rest : List TFormat)
    (hssim : args.required_ssim = none)
    (hforms : args.formats = pre ++ TFormat.jpg :: rest)
    (hpre : ∀ f ∈ pre, env.encodeOk f = true)
    (hjpg : env.encodeOk .jpg = false) :
    cmd_compress env args img = .error (.encodeError .jpg) := by
  unfold cmd_compress
  rw [hforms]
  exact mapM_append_err _ _ _ rest (compress_jpg_err env img args none hssim hjpg)
    pre (fun f hf => ⟨_, compress_ok env img f args none hssim (hpre f hf)⟩)

theorem cmd_compress_error_propagates_witness :
    argsPngJpgWebp.required_ssim = none ∧
    argsPngJpgWebp.formats = [TFormat.png] ++ TFormat.jpg :: [TFormat.webp] ∧
    envJpgFails.encodeOk .jpg = false ∧
    cmd_compress envJpgFails argsPngJpgWebp imgSample =
      .error (.encodeError .jpg) := by
  refine ⟨rfl, rfl, rfl, ?_⟩
  exact cmd_compress_error_propagates envJpgFails imgSample argsPngJpgWebp
    [.png] [.webp] rfl rfl (by decide) rfl

lemma compress_webp_out (env : Env) (img : Handle) (d : List Char)
    (r : Option ℚ) (c : ℤ) (ow : LossyOut)
    (h : _compress_webp env img d r c none = .ok ow) :
    ow.lossless = (if img.loader = "jpegload".data then false else true) ∧
    ∀ p ∈ ow.candidates, p.2 = ow.lossless := by
  unfold _compress_webp at h
  cases hq : qualitySearch (env.score .webp) r c env.fuel with
  | none => rw [hq] at h; exact absurd h (by simp)
  | some pr =>
    obtain ⟨qf, tr⟩ := pr
    rw [hq] at h
    dsimp only at h
    by_cases he : env.encodeOk .webp
    · rw [if_pos he] at h
      have hout : ow = ⟨d, qf, if img.loader = "jpegload".data then false else true,
          tr.map (fun q => (q, if img.loader = "jpegload".data then false else true))⟩ := by
        have := h
        simp only [Except.ok.injEq] at this
        exact this.symm
      rw [hout]
      dsimp only
      refine ⟨rfl, ?_⟩
      intro p hp
      obtain ⟨q, _, rfl⟩ := List.mem_map.mp hp
      rfl
    · rw [if_neg he] at h
      exact absurd h (by simp)

lemma compress_avif_out (env : Env) (img : Handle) (d : List Char)
    (r : Option ℚ) (c : ℤ) (oa : LossyOut)
    (h : _compress_avif env img d r c none = .ok oa) :
    oa.lossless = (if img.loader = "jpegload".data then false else true) ∧
    ∀ p ∈ oa.candidates, p.2 = oa.lossless := by
  unfold _compress_avif at h
  cases hq : qualitySearch (env.score .avif) r c env.fuel with
  | none => rw [hq] at h; exact absurd h (by simp)
  | some pr =>
    obtain ⟨qf, tr⟩ := pr
    rw [hq] at h
    dsimp only at h
    by_cases he : env.encodeOk .avif
    · rw [if_pos he] at h
      have hout : oa = ⟨d, qf, if img.loader = "jpegload".data then false else true,
          tr.map (fun q => (q, if img.loader = "jpegload".data then false else true))⟩ := by
        have := h
        simp only [Except.ok.injEq] at this
        exact this.symm
      rw [hout]
      dsimp only
      refine ⟨rfl, ?_⟩
      intro p hp
      obtain ⟨q, _, rfl⟩ := List.mem_map.mp hp
      rfl
    · rw [if_neg he] at h
      exact absurd h (by simp)

/-- C8: for both WebP and AVIF encodes with lossless flag "auto" (`None`),
the flag is resolved from the handle's vips-loader tag before the quality
search — to lossy (false) exactly when the source was loaded by the JPEG
loader, to lossless (true) otherwise — and that one resolved value is what
every encode attempt of the format for that handle receives: every
in-memory candidate encode and the final save carry it, and WebP and AVIF
resolve identically for the same handle. -/
theorem lossless_auto_resolution (env : Env) (img : Handle) (dw da : List Char)
    (r : Option ℚ) (cw ca : ℤ) (ow oa : LossyOut)
    (hw : _compress_webp env img dw r cw none = .ok ow)
    (ha : _compress_avif env img da r ca none = .ok oa) :
    (ow.lossless = false ↔ img.loader = "jpegload".data) ∧
    (∀ p ∈ ow.candidates, p.2 = ow.lossless) ∧
    (oa.lossless = false ↔ img.loader = "jpegload".data) ∧
    (∀ p ∈ oa.candidates, p.2 = oa.lossless) ∧
    ow.lossless = oa.lossless := by
  obtain ⟨hw1, hw2⟩ := compress_webp_out env img dw r cw ow hw
  obtain ⟨ha1, ha2⟩ := compress_avif_out env img da r ca oa ha
  refine ⟨?_, hw2, ?_, ha2, ?_⟩
  · rw [hw1]
    by_cases hl : img.loader = "jpegload".data <;> simp [hl]
  · rw [ha1]
    by_cases hl : img.loader = "jpegload".data <;> simp [hl]
  · rw [hw1, ha1]

theorem lossless_auto_resolution_witness :
    _compress_webp envAllGood imgJpeg "a".data (some 0) 75 none =
      .ok ⟨"a".data, 76, false, [(76, false)]⟩ ∧
    _compress_avif envAllGood imgJpeg "b".data (some 0) 50 none =
      .ok ⟨"b".data, 51, false, [(51, false)]⟩ ∧
    (false = false ↔ imgJpeg.loader = "jpegload".data) := by
  have hw : _compress_webp envAllGood imgJpeg "a".data (some 0) 75 none =
      .ok ⟨"a".data, 76, false, [(76, false)]⟩ := by decide
  have ha : _compress_avif envAllGood imgJpeg "b".data (some 0) 50 none =
      .ok ⟨"b".data, 51, false, [(51, false)]⟩ := by decide
  exact ⟨hw, ha,
    (lossless_auto_resolution envAllGood imgJpeg "a".data "b".data (some 0) 75 50
      ⟨"a".data, 76, false, [(76, false)]⟩ ⟨"b".data, 51, false, [(51, false)]⟩
      hw ha).1⟩

/-- Arguments of the spec's responsive scenario: variants small/200 and
large/600, formats [jpg, webp], destination "dest". -/
def argsResp : Args :=
  { destination := "dest".data,
    sizes := [("small".data, 200), ("large".data, 600)],
    formats := [.jpg, .webp] }

/-- Arguments for a responsive run over a source whose stem contains a
dot. -/
def argsDotted : Args :=
  { destination := "out".data,
    sizes := [("small".data, 200)],
    formats := [.jpg] }

/-- C9 counterexample: for the source file `img.v2.png` (stem `img.v2`)
with variant `small` and format `jpg`, the claimed output path is
`out/img.v2-small.jpg`, but the run produces `out/img.jpg`: the destination
is built with `with_suffix`, which replaces the dotted tail `.v2-small` of
the derived stem instead of appending the extension. -/
theorem cmd_responsive_dotted_stem_collision :
    cmd_responsive envAllGood argsDotted imgDotted = .ok ["out/img.jpg".data] ∧
      ("out/img.jpg".data : List Char) ≠ "out/img.v2-small.jpg".data := by
  have hth : targetHeight imgDotted 200 = 150 := by
    rw [targetHeight_eq_ediv imgDotted 200 (by decide)]
    decide
  have hres : _resize imgDotted 200 =
      .ok ⟨200, 150, "pngload".data, "img.v2.png".data⟩ := by
    unfold _resize
    rw [if_neg (by decide : ¬ (200 : ℤ) = 0), hth]
    decide
  refine ⟨?_, by decide⟩
  unfold cmd_responsive
  rw [show argsDotted.sizes = [("small".data, 200)] from rfl, List.mapM_cons]
  dsimp only
  rw [hres]
  decide

/-- C9 (amended): a responsive invocation processes the size requests in
the order given, resizes each, derives the override stem
`"{stem}-{variant_name}"` and compresses it into every requested format in
order, producing exactly `len(sizes) × len(formats)` outputs at
`{destination}/{stem}-{variant-name}.{format-extension}` — PROVIDED every
derived stem `{stem}-{variant-name}` contains no dot: the path is built
with `with_suffix`, which replaces an existing dotted tail of the derived
stem rather than appending, so for dotted stems the claimed output path is
wrong. -/
theorem cmd_responsive_outputs (env : Env) (args : Args) (img : Handle)
    (hssim : args.required_ssim = none)
    (henc : ∀ f ∈ args.formats, env.encodeOk f = true)
    (hw : 0 < img.width)
    (hsz : ∀ p ∈ args.sizes, 0 < p.2 ∧ img.width ≤ img.height * p.2)
    (hdot1 : '.' ∉ pyStem img.filename)
    (hdot2 : ∀ p ∈ args.sizes, '.' ∉ p.1) :
    cmd_responsive env args img =
      .ok ((args.sizes.map (fun p => args.formats.map (fun f =>
        args.destination ++ '/' ::
          ((pyStem img.filename ++ '-' :: p.1) ++ fmtExt f)))).flatten) ∧
    ((args.sizes.map (fun p => args.formats.map (fun f =>
        args.destination ++ '/' ::
          ((pyStem img.filename ++ '-' :: p.1) ++ fmtExt f)))).flatten).length =
      args.sizes.length * args.formats.length := by
  constructor
  · unfold cmd_responsive
    have houter : args.sizes.mapM (fun tsize =>
        (_resize img tsize.2).bind (fun resized =>
          args.formats.mapM (fun tformat =>
            _compress env resized tformat args
              (some (pyStem img.filename ++ '-' :: tsize.1))))) =
        .ok (args.sizes.map (fun p => args.formats.map (fun f =>
          args.destination ++ '/' ::
            ((pyStem img.filename ++ '-' :: p.1) ++ fmtExt f)))) := by
      apply mapM_ok
      intro p hp
      obtain ⟨resized, hres, _⟩ :=
        resize_ok_exists img p.2 (hsz p hp).1
          (targetHeight_pos img p.2 hw (hsz p hp).2)
      rw [hres]
      show args.formats.mapM (fun tformat =>
        _compress env resized tformat args
          (some (pyStem img.filename ++ '-' :: p.1))) = _
      apply mapM_ok
      intro f hf
      rw [compress_ok env resized f args (some (pyStem img.filename ++ '-' :: p.1))
        hssim (henc f hf)]
      have hnd : '.' ∉ pyStem img.filename ++ '-' :: p.1 := by
        intro hmem
        rcases List.mem_append.mp hmem with hmem | hmem
        · exact hdot1 hmem
        · rcases List.mem_cons.mp hmem with hmem | hmem
          · exact absurd hmem (by decide)
          · exact hdot2 p hp hmem
      rw [Option.getD, pyWithSuffix_no_dot _ _ hnd]
    rw [houter]
    rfl
  · induction args.sizes with
    | nil => simp
    | cons a as ih =>
      simp only [List.map_cons, List.flatten_cons, List.length_append,
        List.length_map, List.length_cons, ih]
      ring

theorem cmd_responsive_outputs_witness :
    cmd_responsive envAllGood argsResp imgSample =
      .ok ["dest/photo-small.jpg".data, "dest/photo-small.webp".data,
        "dest/photo-large.jpg".data, "dest/photo-large.webp".data] ∧
    ((argsResp.sizes.map (fun p => argsResp.formats.map (fun f =>
        argsResp.destination ++ '/' ::
          ((pyStem imgSample.filename ++ '-' :: p.1) ++ fmtExt f)))).flatten).length =
      argsResp.sizes.length * argsResp.formats.length := by
  have c := cmd_responsive_outputs envAllGood argsResp imgSample rfl (by decide)
    (by decide) (by decide) (by decide) (by decide)
  refine ⟨?_, c.2⟩
  rw [c.1]
  decide
